import Mathlib

/-!
Verification of the Beam-ACO TSPTW solver (`Devoir2`): a shallow embedding of
`utils/beam_search.py` and the pheromone-handling part of `solver_advanced.py`,
with theorems settling the specification's claims about them.

Floats are modelled by `ℚ`; matrices by `List (List ℚ)`; the random draws of
the Python code (`np.random.uniform`, `np.random.choice`) are explicit inputs,
so every embedded function is deterministic and executable.  The instance
model (`tsptw.py`) is an external collaborator per spec §2/§6: its node count,
edge weights and time windows are plain parameters here.  Repository code that
is referenced but not part of the given sources (`utils/ant.py`,
`utils/beam_node.py`, `tsptw.get_solution_cost`) is modelled from the spec,
as marked on the corresponding definitions.
-/

/-! ## Definitions -/

/-! ### `np.argmax` / `np.argmin`

`numpy` documents `argmax`/`argmin` as returning the index of the first
occurrence of the extreme value; this is the contract the source relies on. -/

/-- Maximum of a list with a default for the empty list (the seed plays the
role of numpy reducing over the first element). -/
def listMaxD : List ℚ → ℚ → ℚ
  | [], d => d
  | x :: xs, _ => xs.foldl max x

/-- Model of `np.argmax`: index of the first occurrence of the maximum value
(numpy's documented tie-breaking). -/
def npArgmax : List ℚ → Nat
  | [] => 0
  | x :: xs => if xs.all (fun y => decide (y ≤ x)) = true then 0 else npArgmax xs + 1

/-- Model of `np.argmin`: index of the first occurrence of the minimum value. -/
def npArgmin : List ℚ → Nat
  | [] => 0
  | x :: xs => if xs.all (fun y => decide (x ≤ y)) = true then 0 else npArgmin xs + 1

/-- The spec's wording of the greedy tie-break: the first (lowest) index
attaining the maximum, as a `findIdx` over the list's maximum value. -/
def specArgmax (l : List ℚ) : Nat := l.findIdx (fun x => decide (x = listMaxD l 0))

/-- Entry `(i, j)` of a matrix, with numpy-style total lookup. -/
def cell (m : List (List ℚ)) (i j : Nat) : ℚ := (m.getD i []).getD j 0

/-! ### Stochastic sampling (`__stochastic_sampling`, beam_search.py lines 60-74)

The Python function draws `q = np.random.uniform(0,1)`, builds
`tau_eta = (np.array(pheromone) * np.array(eta))[last_customer_added]`
(elementwise matrix product, then row selection), returns `np.argmax(tau_eta)`
when `q <= determinism_rate`, and otherwise draws from
`np.random.choice(range(len), p = tau_eta / sum(tau_eta))`.  Here `q` is an
explicit input and the categorical branch returns the distribution the index
is drawn from.  When `sum(tau_eta) = 0` the numpy division produces `nan`
probabilities and `np.random.choice` raises a `ValueError`; that runtime
failure is modelled as `Except.error "ValueError"`. -/

/-- Result of one sampling call: either the deterministically chosen index, or
the categorical distribution the index is drawn from. -/
inductive SampleResult where
  | greedy (j : Nat)
  | categorical (p : List ℚ)
deriving DecidableEq

/-- Row `i` of the elementwise product `pheromone * eta`. -/
def tauEtaRow (pheromone eta : List (List ℚ)) (i : Nat) : List ℚ :=
  List.zipWith (fun a b => a * b) (pheromone.getD i []) (eta.getD i [])

/-- Embedding of `__stochastic_sampling` (beam_search.py lines 60-74). -/
def stochastic_sampling (determinism_rate q : ℚ) (pheromone eta : List (List ℚ))
    (last_customer_added : Nat) : Except String SampleResult :=
  let tauEta := tauEtaRow pheromone eta last_customer_added
  if q ≤ determinism_rate then
    Except.ok (SampleResult.greedy (npArgmax tauEta))
  else if tauEta.sum = 0 then
    Except.error "ValueError"
  else
    Except.ok (SampleResult.categorical (tauEta.map (fun x => x / tauEta.sum)))

/-- The sampling rule exactly as the spec words it: greedy argmax with
first-index tie-break when `q ≤ determinism_rate`, otherwise the categorical
distribution `p_j = tau_eta_j / Σ_k tau_eta_k`. -/
def spec_stochastic_sampling (determinism_rate q : ℚ) (pheromone eta : List (List ℚ))
    (last_customer_added : Nat) : SampleResult :=
  let tauEta := tauEtaRow pheromone eta last_customer_added
  if q ≤ determinism_rate then
    SampleResult.greedy (specArgmax tauEta)
  else
    SampleResult.categorical
      ((List.range tauEta.length).map (fun j => tauEta.getD j 0 / tauEta.sum))

/-! ### Heuristic attribute matrices
(`__heuristic_benefit_of_visiting_customer_attributes`, beam_search.py
lines 96-145).  `distance_max`, `distance_min`, the edge-weight function and
the time windows come from the external instance model. -/

/-- Embedding of the travel-cost matrix construction (lines 100-105):
`c[i][j] = (distance_max - w(i,j)) / standardizer` with the diagonal forced to
0 afterwards, where `standardizer = distance_max - distance_min` if that
difference is positive and 1 otherwise. -/
def travel_cost (dmax dmin : ℚ) (w : Nat → Nat → ℚ) (n : Nat) : List (List ℚ) :=
  (List.range n).map (fun i =>
    (List.range n).map (fun j =>
      if i = j then 0
      else (dmax - w i j) / (if 0 < dmax - dmin then dmax - dmin else 1)))

/-- The positive window gaps of node `i` (lines 115-122): for every `j ≠ i`
in range, the value `tw j - tw i` when it is positive, in ascending `j`
order.  `tw` is one bound of the time window (earliest or latest). -/
def gapList (tw : Nat → ℚ) (n i : Nat) : List ℚ :=
  ((List.range n).filter (fun j => decide (j ≠ i))).filterMap
    (fun j => if 0 < tw j - tw i then some (tw j - tw i) else none)

/-- The per-node scalar stored for column `i` (lines 113-125): the minimum
positive gap, or 0 when no positive gap exists.  The Python code reduces with
`min` from an `inf` sentinel and tests `!= inf`; over a nonempty gap list this
is the plain minimum, and the sentinel case stores `0.`. -/
def minPosGap (tw : Nat → ℚ) (n i : Nat) : ℚ :=
  match gapList tw n i with
  | [] => 0
  | x :: xs => xs.foldl min x

/-- The nodes whose gap list is nonempty: only their scalars enter the
`e_max`/`e_min` running extremes (lines 127-130, guarded by `!= inf`). -/
def finiteIdx (tw : Nat → ℚ) (n : Nat) : List Nat :=
  (List.range n).filter (fun i => !(gapList tw n i).isEmpty)

/-- The finite per-node scalars, in node order. -/
def finiteVals (tw : Nat → ℚ) (n : Nat) : List ℚ :=
  (finiteIdx tw n).map (minPosGap tw n)

/-- `e_max` (line 109/127): running maximum seeded with `-1.0`. -/
def gapMax (tw : Nat → ℚ) (n : Nat) : ℚ := (finiteVals tw n).foldl max (-1)

/-- `e_min` (line 109/128): running minimum seeded with `inf`; over a nonempty
scalar list this is the plain minimum (the empty case, where the Python value
would stay `inf`, is given an arbitrary value). -/
def gapMin (tw : Nat → ℚ) (n : Nat) : ℚ :=
  match finiteVals tw n with
  | [] => 0
  | x :: xs => xs.foldl min x

/-- The standardized column value (lines 132-143):
`(max - value) / (max - min)`, then clamped to 1 when above 1 and floored to
0.001 when exactly 0. -/
def stdCol (tw : Nat → ℚ) (n i : Nat) : ℚ :=
  let s := (gapMax tw n - minPosGap tw n i) / (gapMax tw n - gapMin tw n)
  if 1 < s then 1 else if s = 0 then 1 / 1000 else s

/-- A service-time matrix: the standardized scalar of node `i` broadcast down
column `i` (lines 124-125 write whole columns). -/
def serviceMatrix (tw : Nat → ℚ) (n : Nat) : List (List ℚ) :=
  (List.range n).map (fun _ => (List.range n).map (fun i => stdCol tw n i))

/-- `earliest_service_time`: standardized from the earliest window bounds. -/
def earliest_service_time (timeWindows : Nat → ℚ × ℚ) (n : Nat) : List (List ℚ) :=
  serviceMatrix (fun j => (timeWindows j).1) n

/-- `lastest_service_time`: standardized from the latest window bounds. -/
def lastest_service_time (timeWindows : Nat → ℚ × ℚ) (n : Nat) : List (List ℚ) :=
  serviceMatrix (fun j => (timeWindows j).2) n

/-- The convex combination `eta = lambda_c * c + lambda_l * l + lambda_e * e`
of `__sample_heuristic_benefit_of_visiting_customer` (line 87), elementwise. -/
def matCombine (lc ll le : ℚ) (mc ml me : List (List ℚ)) : List (List ℚ) :=
  List.zipWith (fun rowc rowle => List.zipWith (fun a p => lc * a + p) rowc rowle)
    mc
    (List.zipWith (fun rowl rowe => List.zipWith (fun b g => ll * b + le * g) rowl rowe)
      ml me)

/-! ### Beam construction (`beam_construct` / `__beam__construction_step`,
beam_search.py lines 32-57)

`__beam__construction_step` expands a node into `min(mu_k_bw, rem)` children,
each obtained by one sampling call on the node's id, then recurses on every
child with budget `max(1, mu_k_bw - 1)` and `rem - 1`.  The sampled child ids
are abstracted into a `choose` function from the current node id (for a run in
which every uniform draw takes the greedy branch, `choose` is the
deterministic argmax, so the whole construction is deterministic); the beam
tree's shape does not depend on `choose` at all. -/

/-- A beam node: its node id and its children (`BeamNode` keeps them in a
Python set of distinct objects, i.e. a plain collection). -/
inductive BeamTreeN where
  | node (id : Nat) (children : List BeamTreeN)

/-- Embedding of `__beam__construction_step` (lines 47-57): arguments are the
current node id, the child budget `mu_k_bw` and the count
`number_of_children_not_in_solution`. -/
def beam_construction_step (choose : Nat → Nat) : Nat → Nat → Nat → BeamTreeN
  | id, _, 0 => BeamTreeN.node id []
  | id, muKbw, r + 1 =>
      BeamTreeN.node id
        (List.replicate (min muKbw (r + 1))
          (beam_construction_step choose (choose id) (max 1 (muKbw - 1)) r))

/-- The construction step as claim C5 words it: the child budget is
decremented by one at each depth (no floor), so expansion also stops when the
budget is exhausted. -/
def spec_beam_construction_step (choose : Nat → Nat) : Nat → Nat → Nat → BeamTreeN
  | id, _, 0 => BeamTreeN.node id []
  | id, muKbw, r + 1 =>
      BeamTreeN.node id
        (List.replicate (min muKbw (r + 1))
          (spec_beam_construction_step choose (choose id) (muKbw - 1) r))

/-- Length of the leftmost root-to-leaf path (for the trees built above all
children of a node are identical, so this is the tree's depth). -/
def leftDepth : BeamTreeN → Nat
  | BeamTreeN.node _ [] => 0
  | BeamTreeN.node _ (c :: _) => leftDepth c + 1

/-- Number of children of the root. -/
def rootFanout : BeamTreeN → Nat
  | BeamTreeN.node _ cs => cs.length

/-- Every node of the tree has at most `k` children. -/
inductive FanoutLE (k : Nat) : BeamTreeN → Prop where
  | node (id : Nat) (cs : List BeamTreeN) (hlen : cs.length ≤ k)
      (hall : ∀ t ∈ cs, FanoutLE k t) : FanoutLE k (BeamTreeN.node id cs)

mutual
/-- Modelled from the spec: `BeamNode.extract_solution` lives in
`utils/beam_node.py`, which is not under src/.  Per spec §4.3 the leaves of
the beam tree are the complete tours, so extraction returns every
root-to-leaf sequence of node ids. -/
def extract_solution : BeamTreeN → List (List Nat)
  | BeamTreeN.node i [] => [[i]]
  | BeamTreeN.node i (c :: cs) => (extractAll (c :: cs)).map (fun p => i :: p)

/-- Concatenated extraction over a list of sibling subtrees. -/
def extractAll : List BeamTreeN → List (List Nat)
  | [] => []
  | t :: ts => extract_solution t ++ extractAll ts
end

/-- Modelled from the spec: `tsptw.get_solution_cost` lives in `tsptw.py`,
which is not under src/.  Per spec §4.3/§6 it is the tour-cost evaluator:
the total edge weight along the sequence. -/
def get_solution_cost (w : Nat → Nat → ℚ) : List Nat → ℚ
  | a :: b :: rest => w a b + get_solution_cost w (b :: rest)
  | _ => 0

/-- Embedding of `beam_construct` (lines 32-43) for a run in which every
uniform draw takes the greedy branch (each draw satisfies
`q ≤ determinism_rate`, an event of positive probability), so every sampling
call returns `np.argmax` of the pheromone-times-eta row of the current node.
The lambda weights drawn by `__random_define_lambda` are folded into the
`eta` argument.  The root is the depot 0, the initial count is
`num_nodes - 1`, the cheapest extracted tour (`np.argmin` of the costs, first
index on ties) is returned with the depot appended. -/
def beam_construct (w : Nat → Nat → ℚ) (pheromone eta : List (List ℚ))
    (muKbw n : Nat) : List Nat :=
  let tree := beam_construction_step
    (fun i => npArgmax (tauEtaRow pheromone eta i)) 0 muKbw (n - 1)
  let sols := extract_solution tree
  let costs := sols.map (get_solution_cost w)
  sols.getD (npArgmin costs) [] ++ [0]

/-! ### A concrete 3-node instance

Nodes 0 (depot), 1, 2.  Edge weights: 1 between 0 and 1, 3 everywhere else,
so `distance_max = 3`, `distance_min = 1`.  Time windows: earliest bounds
(0, 1, 3), latest bounds (0, 2, 6).  Pheromone: uniform 0.5 (the value every
cell has right after `resetUniformPheromoneValues`).  Lambda draw:
`lambda_c = 1/2`, `lambda_l = 1/4`, `lambda_e = 1/4` (a realizable draw of
`__random_define_lambda`). -/

/-- Edge weights of the concrete instance. -/
def w3 : Nat → Nat → ℚ := fun i j =>
  if (i = 0 ∧ j = 1) ∨ (i = 1 ∧ j = 0) then 1 else 3

/-- Earliest window bounds of the concrete instance. -/
def twE3 : Nat → ℚ := fun j => if j = 0 then 0 else if j = 1 then 1 else 3

/-- Latest window bounds of the concrete instance. -/
def twL3 : Nat → ℚ := fun j => if j = 0 then 0 else if j = 1 then 2 else 6

/-- Uniform pheromone matrix of the concrete instance. -/
def ph3 : List (List ℚ) := List.replicate 3 (List.replicate 3 (1 / 2))

/-- The eta matrix of the concrete instance for the lambda draw above. -/
def eta3 : List (List ℚ) :=
  matCombine (1 / 2) (1 / 4) (1 / 4)
    (travel_cost 3 1 w3 3) (serviceMatrix twL3 3) (serviceMatrix twE3 3)

/-! ### Pheromone store (spec §4.2; driver calls in solver_advanced.py)

`utils/ant.py` is not under src/: only its callers are.  Its two mutating
operations are therefore modelled from the spec. -/

/-- Clamp a value into `[lo, hi]` (spec §4.2: "After deposit, clamp every
cell into [tau_min, tau_max]"). -/
def clampVal (lo hi x : ℚ) : ℚ := max lo (min x hi)

/-- Modelled from the spec: `Ant.resetUniformPheromoneValues` (utils/ant.py,
not under src/) sets every cell of the n×n pheromone matrix to the mid value
0.5 (spec §4.2/§3). -/
def resetUniformPheromoneValues (n : Nat) : List (List ℚ) :=
  List.replicate n (List.replicate n (1 / 2))

/-- Modelled from the spec: `Ant.updatePheromoneValues` (utils/ant.py, not
under src/) evaporates every cell by the learning rate, deposits a
reinforcement amount derived from the reference tours (abstracted as an
arbitrary per-cell amount, which covers every tour argument, cf-dependent
weight schedule, and null-tour no-op), and finally clamps every cell into
`[tau_min, tau_max]` (spec §4.2).  The driver constructs the ant with
`tau_min = 0.001` and `tau_max = 0.999` (solver_advanced.py lines 27-28). -/
def updatePheromoneValues (l_rate : ℚ) (deposit : Nat → Nat → ℚ)
    (m : List (List ℚ)) : List (List ℚ) :=
  (List.range m.length).map (fun i =>
    (List.range (m.getD i []).length).map (fun j =>
      clampVal (1 / 1000) (999 / 1000) (cell m i j * (1 - l_rate) + deposit i j)))

/-- One pheromone operation issued by the trial driver. -/
inductive PhOp where
  | reset
  | update (l_rate : ℚ) (deposit : Nat → Nat → ℚ)

/-- Apply one driver operation to the pheromone matrix. -/
def phStep (n : Nat) (m : List (List ℚ)) : PhOp → List (List ℚ)
  | PhOp.reset => resetUniformPheromoneValues n
  | PhOp.update r d => updatePheromoneValues r d m

/-- The matrix after a trial start (`ant.resetUniformPheromoneValues()`,
solver_advanced.py line 62) followed by any sequence of driver operations. -/
def runPhOps (n : Nat) (ops : List PhOp) : List (List ℚ) :=
  ops.foldl (phStep n) (resetUniformPheromoneValues n)

/-- All cells exist (n×n) and lie within the driver's pheromone bounds. -/
def phInBounds (n : Nat) (m : List (List ℚ)) : Prop :=
  m.length = n ∧ (∀ i, i < n → (m.getD i []).length = n) ∧
    ∀ i j, i < n → j < n →
      1 / 1000 ≤ cell m i j ∧ cell m i j ≤ 999 / 1000

/-! ### The driver's restart policy (solver_advanced.py lines 117-124)

```
if bs_update and cf > 0.99:
    ant.resetUniformPheromoneValues(); bs_update = False; restart = True
else:
    if cf > 0.99: bs_update = True
    ant.updatePheromoneValues(bs_update, cf, ...)
```
-/

/-- The pheromone operation chosen at one iteration check (the update action
records the `bs_update` argument it is called with). -/
inductive PhAction where
  | resetPheromone
  | updatePheromone (bs_update : Bool)
deriving DecidableEq

/-- Embedding of the decision block: given the current `bs_update` flag and
the convergence factor `cf`, return the action taken and the new flag. -/
def driverStep (bs_update : Bool) (cf : ℚ) : PhAction × Bool :=
  if bs_update && decide ((99 : ℚ) / 100 < cf) then
    (PhAction.resetPheromone, false)
  else
    let b := if decide ((99 : ℚ) / 100 < cf) = true then true else bs_update
    (PhAction.updatePheromone b, b)

/-- The actions of a whole run of checks, from a given initial flag (the
driver starts each trial with `bs_update = False`, line 63). -/
def driverRun : Bool → List ℚ → List PhAction
  | _, [] => []
  | b, cf :: rest => (driverStep b cf).1 :: driverRun (driverStep b cf).2 rest

/-- The policy exactly as claim C9 words it: reset on the second of two
consecutive checks above 0.99; a check at or below 0.99 therefore clears the
flag (otherwise the two triggering checks would not be consecutive). -/
def spec_driverStep (flag : Bool) (cf : ℚ) : PhAction × Bool :=
  if flag && decide ((99 : ℚ) / 100 < cf) then
    (PhAction.resetPheromone, false)
  else if decide ((99 : ℚ) / 100 < cf) = true then
    (PhAction.updatePheromone true, true)
  else
    (PhAction.updatePheromone false, false)

/-- The claim-side actions of a whole run of checks. -/
def spec_driverRun : Bool → List ℚ → List PhAction
  | _, [] => []
  | b, cf :: rest => (spec_driverStep b cf).1 :: spec_driverRun (spec_driverStep b cf).2 rest

/-! ### The `ProbabilisticBeamSearch` constructor (beam_search.py lines 11-29)

Python defaults: `beam_width = 1`, `determinism_rate = 0.9`,
`max_children = 100`, `mu = 0.2`, `n_samples = 10`, `sample_percent = 100`.
The two assertions become `Except.error` with the assertion message. -/

/-- The constructed object's numeric fields. -/
structure ProbabilisticBeamSearch where
  beam_width : Int
  determinism_rate : ℚ
  max_children : Int
  mu : ℚ
  n_samples : Int
  sample_rate : Int
  mu_k_bw : Int

/-- Python `int()`: truncation toward zero. -/
def pyInt (x : ℚ) : Int := if 0 ≤ x then x.floor else -((-x).floor)

/-- Embedding of `ProbabilisticBeamSearch.__init__`: the assertions
`int(beam_width) > 0` and `mu >= 1` fail with their messages; otherwise the
derived fields `mu_k_bw = int(beam_width * mu)` and
`sample_rate = int(sample_percent * (num_nodes - 1) / 100 + 0.5) + 1` are
computed. -/
def pbs_init (num_nodes beam_width : Int) (determinism_rate : ℚ)
    (max_children : Int) (mu : ℚ) (n_samples sample_percent : Int) :
    Except String ProbabilisticBeamSearch :=
  if ¬ (0 < beam_width) then Except.error "beam_width must be greater than 1"
  else if ¬ (1 ≤ mu) then Except.error "mu must be >= 1"
  else Except.ok
    ⟨beam_width, determinism_rate, max_children, mu, n_samples,
      pyInt ((sample_percent : ℚ) * ((num_nodes : ℚ) - 1) / 100 + 1 / 2) + 1,
      pyInt ((beam_width : ℚ) * mu)⟩

/-! ## Theorems -/

/-! ### Generic fold lemmas for `max` and `min` over `ℚ` lists -/

theorem foldl_max_init (l : List ℚ) (a : ℚ) : a ≤ l.foldl max a := by
  induction l generalizing a with
  | nil => exact le_refl a
  | cons x xs ih => exact le_trans (le_max_left a x) (ih (max a x))

theorem foldl_max_le_mem (l : List ℚ) (a x : ℚ) (hx : x ∈ l) : x ≤ l.foldl max a := by
  induction l generalizing a with
  | nil => cases hx
  | cons y t ih =>
      rcases List.mem_cons.mp hx with h | h
      · subst h
        exact le_trans (le_max_right a x) (foldl_max_init t (max a x))
      · exact ih (max a y) h

theorem foldl_max_cases (l : List ℚ) (a : ℚ) : l.foldl max a = a ∨ l.foldl max a ∈ l := by
  induction l generalizing a with
  | nil => exact Or.inl rfl
  | cons y t ih =>
      rcases ih (max a y) with h | h
      · rcases max_choice a y with hm | hm
        · left
          show t.foldl max (max a y) = a
          rw [h, hm]
        · right
          show t.foldl max (max a y) ∈ y :: t
          rw [h, hm]
          exact List.mem_cons_self y t
      · exact Or.inr (List.mem_cons_of_mem y h)

theorem foldl_max_shift (l : List ℚ) (a b : ℚ) :
    l.foldl max (max a b) = max a (l.foldl max b) := by
  induction l generalizing b with
  | nil => rfl
  | cons c t ih =>
      show t.foldl max (max (max a b) c) = max a ((c :: t).foldl max b)
      rw [max_assoc, ih (max b c)]
      rfl

theorem foldl_min_init (l : List ℚ) (a : ℚ) : l.foldl min a ≤ a := by
  induction l generalizing a with
  | nil => exact le_refl a
  | cons x xs ih => exact le_trans (ih (min a x)) (min_le_left a x)

theorem foldl_min_le_mem (l : List ℚ) (a x : ℚ) (hx : x ∈ l) : l.foldl min a ≤ x := by
  induction l generalizing a with
  | nil => cases hx
  | cons y t ih =>
      rcases List.mem_cons.mp hx with h | h
      · subst h
        exact le_trans (foldl_min_init t (min a x)) (min_le_right a x)
      · exact ih (min a y) h

theorem foldl_min_cases (l : List ℚ) (a : ℚ) : l.foldl min a = a ∨ l.foldl min a ∈ l := by
  induction l generalizing a with
  | nil => exact Or.inl rfl
  | cons y t ih =>
      rcases ih (min a y) with h | h
      · rcases min_choice a y with hm | hm
        · left
          show t.foldl min (min a y) = a
          rw [h, hm]
        · right
          show t.foldl min (min a y) ∈ y :: t
          rw [h, hm]
          exact List.mem_cons_self y t
      · exact Or.inr (List.mem_cons_of_mem y h)

/-! ### First-index argmax -/

theorem npArgmax_cons (x : ℚ) (xs : List ℚ) :
    npArgmax (x :: xs) =
      if xs.all (fun y => decide (y ≤ x)) = true then 0 else npArgmax xs + 1 := rfl

theorem npArgmax_eq_specArgmax (l : List ℚ) : npArgmax l = specArgmax l := by
  induction l with
  | nil => rfl
  | cons x xs ih =>
      cases xs with
      | nil => simp [npArgmax, specArgmax, listMaxD, List.findIdx_cons]
      | cons y t =>
          have hmax : (y :: t).foldl max x = max x (listMaxD (y :: t) 0) := by
            show t.foldl max (max x y) = max x (t.foldl max y)
            exact foldl_max_shift t x y
          by_cases hall : ∀ z ∈ y :: t, z ≤ x
          · have hM : listMaxD (y :: t) 0 ≤ x := by
              show t.foldl max y ≤ x
              rcases foldl_max_cases t y with h | h
              · rw [h]; exact hall y (List.mem_cons_self y t)
              · exact hall _ (List.mem_cons_of_mem y h)
            have hfold : (y :: t).foldl max x = x := by
              rw [hmax]; exact max_eq_left hM
            have hcond : ((y :: t).all (fun z => decide (z ≤ x))) = true := by
              simpa [List.all_eq_true] using hall
            have hfind : specArgmax (x :: y :: t) = 0 := by
              unfold specArgmax
              rw [List.findIdx_cons]
              have hd : decide (x = listMaxD (x :: y :: t) 0) = true := by
                have hx : listMaxD (x :: y :: t) 0 = x := hfold
                rw [hx]
                simp
              rw [hd]
              rfl
            rw [hfind, npArgmax_cons, hcond]
            simp
          · push_neg at hall
            obtain ⟨z, hz, hzx⟩ := hall
            have hzM : z ≤ listMaxD (y :: t) 0 := by
              rcases List.mem_cons.mp hz with h | h
              · subst h; exact foldl_max_init t z
              · exact foldl_max_le_mem t y z h
            have hxM : x < listMaxD (y :: t) 0 := lt_of_lt_of_le hzx hzM
            have hfold : (y :: t).foldl max x = listMaxD (y :: t) 0 := by
              rw [hmax]; exact max_eq_right (le_of_lt hxM)
            have hcond : ((y :: t).all (fun z => decide (z ≤ x))) = false := by
              simp only [List.all_eq_false]
              exact ⟨z, hz, by simpa using not_le.mpr hzx⟩
            have hxne : decide (x = listMaxD (x :: y :: t) 0) = false := by
              have hx : listMaxD (x :: y :: t) 0 = listMaxD (y :: t) 0 := hfold
              rw [hx]
              exact decide_eq_false (ne_of_lt hxM)
            have hfind : specArgmax (x :: y :: t) = specArgmax (y :: t) + 1 := by
              unfold specArgmax
              rw [List.findIdx_cons, hxne]
              have hpred : (fun w => decide (w = listMaxD (x :: y :: t) 0)) =
                  (fun w => decide (w = listMaxD (y :: t) 0)) := by
                funext w
                have hx : listMaxD (x :: y :: t) 0 = listMaxD (y :: t) 0 := hfold
                rw [hx]
              simp only [cond_false]
              rw [hpred]
            rw [hfind, npArgmax_cons, hcond, ih]
            simp

theorem map_eq_range_map (f : ℚ → ℚ) (l : List ℚ) :
    l.map f = (List.range l.length).map (fun j => f (l.getD j 0)) := by
  induction l with
  | nil => rfl
  | cons x xs ih =>
      show f x :: xs.map f = (List.range (xs.length + 1)).map (fun j => f ((x :: xs).getD j 0))
      rw [List.range_succ_eq_map]
      simp only [List.map_cons, List.map_map]
      refine congrArg (fun r => f x :: r) ?_
      rw [ih]
      exact List.map_congr_left (fun j _ => rfl)

theorem getD_range_map {α : Type} (f : Nat → α) (d : α) (n i : Nat) (hi : i < n) :
    ((List.range n).map f).getD i d = f i := by
  have h1 : i < ((List.range n).map f).length := by simpa using hi
  rw [List.getD_eq_getElem _ _ h1]
  simp

/-! ### Evaluation of the concrete 3-node instance -/

theorem range3 : List.range 3 = [0, 1, 2] := rfl

theorem travel_cost_w3 : travel_cost 3 1 w3 3 = [[0, 1, 0], [1, 0, 0], [0, 0, 0]] := by
  norm_num [travel_cost, w3, range3]

theorem finiteVals_twE3 : finiteVals twE3 3 = [1, 2] := by
  norm_num [finiteVals, finiteIdx, gapList, minPosGap, twE3, range3, List.filter,
    List.filterMap]

theorem finiteVals_twL3 : finiteVals twL3 3 = [2, 4] := by
  norm_num [finiteVals, finiteIdx, gapList, minPosGap, twL3, range3, List.filter,
    List.filterMap]

theorem svcE3 : serviceMatrix twE3 3 =
    [[1, 1 / 1000, 1], [1, 1 / 1000, 1], [1, 1 / 1000, 1]] := by
  norm_num [serviceMatrix, stdCol, gapMax, gapMin, minPosGap, finiteVals, finiteIdx,
    gapList, twE3, range3, List.filter, List.filterMap]

theorem svcL3 : serviceMatrix twL3 3 =
    [[1, 1 / 1000, 1], [1, 1 / 1000, 1], [1, 1 / 1000, 1]] := by
  norm_num [serviceMatrix, stdCol, gapMax, gapMin, minPosGap, finiteVals, finiteIdx,
    gapList, twL3, range3, List.filter, List.filterMap]

theorem eta3_eval : eta3 =
    [[1 / 2, 1001 / 2000, 1 / 2], [1, 1 / 2000, 1 / 2], [1 / 2, 1 / 2000, 1 / 2]] := by
  norm_num [eta3, matCombine, travel_cost_w3, svcE3, svcL3]

theorem ph3_eval : ph3 = [[1 / 2, 1 / 2, 1 / 2], [1 / 2, 1 / 2, 1 / 2], [1 / 2, 1 / 2, 1 / 2]] := by
  norm_num [ph3, List.replicate]

theorem tau3_row0 : tauEtaRow ph3 eta3 0 = [1 / 4, 1001 / 4000, 1 / 4] := by
  norm_num [tauEtaRow, ph3_eval, eta3_eval]

theorem tau3_row1 : tauEtaRow ph3 eta3 1 = [1 / 2, 1 / 4000, 1 / 4] := by
  norm_num [tauEtaRow, ph3_eval, eta3_eval]

theorem argmax3_row0 : npArgmax (tauEtaRow ph3 eta3 0) = 1 := by
  rw [tau3_row0]; norm_num [npArgmax]

theorem argmax3_row1 : npArgmax (tauEtaRow ph3 eta3 1) = 0 := by
  rw [tau3_row1]; norm_num [npArgmax]

theorem tree3_eval : beam_construction_step (fun i => npArgmax (tauEtaRow ph3 eta3 i)) 0 4 2 =
    BeamTreeN.node 0 [BeamTreeN.node 1 [BeamTreeN.node 0 []],
      BeamTreeN.node 1 [BeamTreeN.node 0 []]] := by
  simp [beam_construction_step, argmax3_row0, argmax3_row1, List.replicate]

theorem beam3_eval : beam_construct w3 ph3 eta3 4 3 = [0, 1, 0, 0] := by
  simp only [beam_construct]
  rw [show (3 - 1 : Nat) = 2 from rfl, tree3_eval]
  norm_num [extract_solution, extractAll, get_solution_cost, npArgmin, w3]

/-- C1: the claim says stochastic sampling never returns a node already in the
partial tour.  The code never excludes visited nodes: on the concrete 3-node
instance, with the partial tour `[0, 1]` (so `last_customer_added = 1`), a
greedy draw (`q = 0.1 ≤ determinism_rate = 0.2`) returns node 0, which is
already in the partial tour — the candidate row is the raw
pheromone-times-eta row, with no masking of visited nodes. -/
theorem c1_sampling_returns_visited_node :
    stochastic_sampling (2 / 10) (1 / 10) ph3 eta3 1 = Except.ok (SampleResult.greedy 0) ∧
      (0 : Nat) ∈ [0, 1] := by
  constructor
  · simp only [stochastic_sampling]
    rw [if_pos (by norm_num), argmax3_row1]
  · decide

/-- C2: the claim says every tour returned by beam_construct has length n+1,
starts and ends at the depot, and its interior is a permutation of the
non-depot nodes.  On the concrete 3-node instance (an all-greedy run, an
event of positive probability) the returned tour is `[0, 1, 0, 0]`: length
and endpoints are as claimed, but the interior `[1, 0]` repeats the depot and
never visits node 2, so it is not a permutation of `{1, 2}`. -/
theorem c2_beam_tour_interior_not_permutation :
    beam_construct w3 ph3 eta3 4 3 = [0, 1, 0, 0] ∧
      ¬ ((beam_construct w3 ph3 eta3 4 3).drop 1).dropLast.Perm [1, 2] := by
  refine ⟨beam3_eval, ?_⟩
  rw [beam3_eval]
  decide

/-! ### Beam expansion budget (claim C5) -/

/-- C5 counterexample: with initial budget 1 and two remaining customers, the
claim's rule (budget decremented by one at each depth, expansion stopping once
the budget is exhausted) yields a tree of depth 1, but the code floors the
budget at 1 (`max(1, mu_k_bw - 1)`) and expands to depth 2: the two
constructions differ. -/
theorem c5_budget_counterexample :
    leftDepth (beam_construction_step (fun _ => 0) 0 1 2) = 2 ∧
      leftDepth (spec_beam_construction_step (fun _ => 0) 0 1 2) = 1 ∧
      beam_construction_step (fun _ => 0) 0 1 2 ≠
        spec_beam_construction_step (fun _ => 0) 0 1 2 := by
  refine ⟨rfl, rfl, fun h => ?_⟩
  have h2 : leftDepth (beam_construction_step (fun _ => 0) 0 1 2) =
      leftDepth (spec_beam_construction_step (fun _ => 0) 0 1 2) := by rw [h]
  simp [leftDepth, beam_construction_step, spec_beam_construction_step,
    List.replicate] at h2

theorem fanout_beam_step (choose : Nat → Nat) :
    ∀ (rem b k id : Nat), 1 ≤ b → b ≤ k →
      FanoutLE k (beam_construction_step choose id b rem) := by
  intro rem
  induction rem with
  | zero =>
      intro b k id hb hk
      exact FanoutLE.node id [] (Nat.zero_le k) (fun t ht => absurd ht (List.not_mem_nil t))
  | succ r ih =>
      intro b k id hb hk
      refine FanoutLE.node id _ ?_ ?_
      · rw [List.length_replicate]
        exact le_trans (Nat.min_le_left b (r + 1)) hk
      · intro t ht
        have ht' := List.eq_of_mem_replicate ht
        subst ht'
        refine ih (max 1 (b - 1)) k (choose id) (Nat.le_max_left 1 (b - 1)) ?_
        exact Nat.max_le.mpr ⟨le_trans hb hk, le_trans (Nat.sub_le b 1) hk⟩

theorem depth_beam_step (choose : Nat → Nat) :
    ∀ (rem b id : Nat), 1 ≤ b →
      leftDepth (beam_construction_step choose id b rem) = rem := by
  intro rem
  induction rem with
  | zero => intro b id _; rfl
  | succ r ih =>
      intro b id hb
      have hpos : 1 ≤ min b (r + 1) := le_min hb (Nat.succ_le_succ (Nat.zero_le r))
      have hk : min b (r + 1) = (min b (r + 1) - 1) + 1 :=
        (Nat.succ_pred_eq_of_pos hpos).symm
      show leftDepth (BeamTreeN.node id (List.replicate (min b (r + 1))
        (beam_construction_step choose (choose id) (max 1 (b - 1)) r))) = r + 1
      rw [hk, List.replicate_succ]
      show leftDepth (beam_construction_step choose (choose id) (max 1 (b - 1)) r) + 1 = r + 1
      rw [ih (max 1 (b - 1)) (choose id) (Nat.le_max_left 1 (b - 1))]

theorem rootFanout_beam_step (choose : Nat → Nat) (b rem id : Nat) :
    rootFanout (beam_construction_step choose id b rem) = min b rem := by
  cases rem with
  | zero => simp [beam_construction_step, rootFanout]
  | succ r => simp [beam_construction_step, rootFanout]

/-- C5 (amended): every node of the beam tree has at most `mu_k_bw` children;
the root is expanded into exactly `min(mu_k_bw, remaining)` children; but the
budget is floored at 1 rather than decremented to exhaustion, so (for a
positive initial budget) expansion stops exactly when the count of customers
not yet in the solution reaches zero — every root-to-leaf path has length
`remaining` — and in particular the recursion terminates. -/
theorem c5_beam_expansion_amended (choose : Nat → Nat) (id b rem : Nat) (hb : 1 ≤ b) :
    FanoutLE b (beam_construction_step choose id b rem) ∧
      leftDepth (beam_construction_step choose id b rem) = rem ∧
      rootFanout (beam_construction_step choose id b rem) = min b rem :=
  ⟨fanout_beam_step choose rem b b id hb (le_refl b),
    depth_beam_step choose rem b id hb,
    rootFanout_beam_step choose b rem id⟩

/-- Witness for C5 at the driver's budget `mu_k_bw = 4` on a 6-customer
instance. -/
theorem c5_beam_expansion_amended_witness :
    FanoutLE 4 (beam_construction_step (fun _ => 0) 0 4 6) ∧
      leftDepth (beam_construction_step (fun _ => 0) 0 4 6) = 6 ∧
      rootFanout (beam_construction_step (fun _ => 0) 0 4 6) = min 4 6 :=
  c5_beam_expansion_amended (fun _ => 0) 0 4 6 (by decide)

/-! ### Claim C4: the sampling rule -/

/-- C4: `__stochastic_sampling` implements exactly the spec's rule — when the
uniform draw `q` satisfies `q ≤ determinism_rate` it returns the candidate
maximizing `tau[last][j]*eta[last][j]` with ties broken by the first (lowest)
index attaining the maximum, and otherwise it draws from the categorical
distribution proportional to `tau[last][j]*eta[last][j]` — whenever the
distribution's normalizer is nonzero (when it is zero the code fails instead,
see the C8 theorems). -/
theorem c4_stochastic_sampling_matches_spec (determinism_rate q : ℚ)
    (pheromone eta : List (List ℚ)) (last : Nat)
    (hsum : (tauEtaRow pheromone eta last).sum ≠ 0) :
    stochastic_sampling determinism_rate q pheromone eta last =
      Except.ok (spec_stochastic_sampling determinism_rate q pheromone eta last) := by
  simp only [stochastic_sampling, spec_stochastic_sampling]
  by_cases hq : q ≤ determinism_rate
  · rw [if_pos hq, if_pos hq, npArgmax_eq_specArgmax]
  · rw [if_neg hq, if_neg hq, if_neg hsum,
      map_eq_range_map (fun x => x / (tauEtaRow pheromone eta last).sum)]

/-- Witness for C4 on a concrete one-node state with nonzero normalizer. -/
theorem c4_stochastic_sampling_matches_spec_witness :
    (tauEtaRow [[(1 : ℚ)]] [[(1 : ℚ)]] 0).sum ≠ 0 ∧
      stochastic_sampling 1 (1 / 2) [[(1 : ℚ)]] [[(1 : ℚ)]] 0 =
        Except.ok (spec_stochastic_sampling 1 (1 / 2) [[(1 : ℚ)]] [[(1 : ℚ)]] 0) :=
  ⟨by norm_num [tauEtaRow],
    c4_stochastic_sampling_matches_spec 1 (1 / 2) [[(1 : ℚ)]] [[(1 : ℚ)]] 0
      (by norm_num [tauEtaRow])⟩

/-! ### Claim C8: behavior on a zero total numerator -/

/-- C8 counterexample: the claim says that on a zero total numerator the
program signals an `InfeasibleBranchError` rather than returning an arbitrary
node.  No such error exists in the code: on an all-zero pheromone/eta state
the greedy branch silently returns node 0 (`np.argmax` of a zero row), and
the sampling branch fails with numpy's generic `ValueError` from the
nan probabilities of a division by zero. -/
theorem c8_no_infeasible_branch_error_counterexample :
    (tauEtaRow [[0, 0], [0, 0]] [[0, 0], [0, 0]] 0).sum = 0 ∧
      stochastic_sampling 1 (1 / 2) [[0, 0], [0, 0]] [[0, 0], [0, 0]] 0 =
        Except.ok (SampleResult.greedy 0) ∧
      stochastic_sampling 0 (1 / 2) [[0, 0], [0, 0]] [[0, 0], [0, 0]] 0 =
        Except.error "ValueError" := by
  refine ⟨by norm_num [tauEtaRow], ?_, ?_⟩
  · simp only [stochastic_sampling]
    rw [if_pos (by norm_num)]
    norm_num [tauEtaRow, npArgmax]
  · simp only [stochastic_sampling]
    rw [if_neg (by norm_num)]
    norm_num [tauEtaRow]

/-- C8 (amended): on a state in which every candidate's numerator
`tau[last][j]*eta[last][j]` is zero, the code raises no dedicated
`InfeasibleBranchError` (the class does not exist): the greedy branch returns
index 0 — an arbitrary node — and only the categorical branch fails, with
numpy's generic `ValueError` caused by the division by zero. -/
theorem c8_zero_numerator_behavior_amended (determinism_rate q : ℚ)
    (pheromone eta : List (List ℚ)) (last : Nat)
    (hz : ∀ x ∈ tauEtaRow pheromone eta last, x = 0) :
    (q ≤ determinism_rate →
      stochastic_sampling determinism_rate q pheromone eta last =
        Except.ok (SampleResult.greedy 0)) ∧
    (¬ q ≤ determinism_rate →
      stochastic_sampling determinism_rate q pheromone eta last =
        Except.error "ValueError") := by
  have hsum : (tauEtaRow pheromone eta last).sum = 0 := List.sum_eq_zero hz
  have hargmax : npArgmax (tauEtaRow pheromone eta last) = 0 := by
    cases hte : tauEtaRow pheromone eta last with
    | nil => rfl
    | cons x xs =>
        rw [npArgmax_cons]
        have hall : xs.all (fun y => decide (y ≤ x)) = true := by
          rw [List.all_eq_true]
          intro y hy
          have hx0 : x = 0 := hz x (hte ▸ List.mem_cons_self x xs)
          have hy0 : y = 0 := hz y (hte ▸ List.mem_cons_of_mem x hy)
          simp [hx0, hy0]
        rw [if_pos hall]
  constructor
  · intro hq
    simp only [stochastic_sampling]
    rw [if_pos hq, hargmax]
  · intro hq
    simp only [stochastic_sampling]
    rw [if_neg hq, if_pos hsum]

/-- Witness for C8 on the all-zero 2-node state. -/
theorem c8_zero_numerator_behavior_amended_witness :
    ((1 : ℚ) / 2 ≤ 2 / 10 →
      stochastic_sampling (2 / 10) (1 / 2) [[0, 0], [0, 0]] [[0, 0], [0, 0]] 1 =
        Except.ok (SampleResult.greedy 0)) ∧
    (¬ (1 : ℚ) / 2 ≤ 2 / 10 →
      stochastic_sampling (2 / 10) (1 / 2) [[0, 0], [0, 0]] [[0, 0], [0, 0]] 1 =
        Except.error "ValueError") :=
  c8_zero_numerator_behavior_amended (2 / 10) (1 / 2) [[0, 0], [0, 0]] [[0, 0], [0, 0]] 1
    (by norm_num [tauEtaRow])

/-! ### Claim C9: the restart policy -/

/-- C9 counterexample: the claim says the pheromone reset fires exactly when
`cf > 0.99` holds on two consecutive checks.  On the check sequence
`cf = 1, 0.5, 1` the code resets at the third check (the `bs_update` flag set
by the first check is never cleared by the low second check), while the
claimed consecutive-checks policy never resets on this sequence: the two
traces differ. -/
theorem c9_nonconsecutive_reset_counterexample :
    driverRun false [1, 1 / 2, 1] =
      [PhAction.updatePheromone true, PhAction.updatePheromone true,
        PhAction.resetPheromone] ∧
    spec_driverRun false [1, 1 / 2, 1] =
      [PhAction.updatePheromone true, PhAction.updatePheromone false,
        PhAction.updatePheromone true] := by
  constructor <;> norm_num [driverRun, spec_driverRun, driverStep, spec_driverStep]

/-- C9 (amended): the reset fires at a check with `cf > 0.99` exactly when the
`bs_update` flag is already set, and clears the flag; the first check with
`cf > 0.99` sets the flag and still applies `updatePheromoneValues` (with the
new flag value); and a check with `cf ≤ 0.99` applies `updatePheromoneValues`
and leaves the flag unchanged — in particular it does not clear it, so the
two triggering checks need not be consecutive. -/
theorem c9_restart_policy_amended (b : Bool) (cf : ℚ) :
    (driverStep true cf = (PhAction.resetPheromone, false) ↔ 99 / 100 < cf) ∧
    driverStep false cf =
      (PhAction.updatePheromone (decide (99 / 100 < cf)), decide (99 / 100 < cf)) ∧
    (cf ≤ 99 / 100 → driverStep b cf = (PhAction.updatePheromone b, b)) := by
  refine ⟨⟨?_, ?_⟩, ?_, ?_⟩
  · intro h
    by_cases hcf : (99 : ℚ) / 100 < cf
    · exact hcf
    · simp [driverStep, hcf] at h
  · intro hcf
    simp [driverStep, hcf]
  · by_cases hcf : (99 : ℚ) / 100 < cf
    · simp [driverStep, hcf]
    · simp [driverStep, hcf]
  · intro hcf
    have hcf' : ¬ (99 : ℚ) / 100 < cf := not_lt.mpr hcf
    cases b <;> simp [driverStep, hcf']

/-- Witness for C9 at the flag set and a low convergence factor. -/
theorem c9_restart_policy_amended_witness :
    (driverStep true (1 / 2) = (PhAction.resetPheromone, false) ↔ 99 / 100 < (1 : ℚ) / 2) ∧
    driverStep false (1 / 2) =
      (PhAction.updatePheromone (decide (99 / 100 < (1 : ℚ) / 2)),
        decide (99 / 100 < (1 : ℚ) / 2)) ∧
    ((1 : ℚ) / 2 ≤ 99 / 100 →
      driverStep true (1 / 2) = (PhAction.updatePheromone true, true)) :=
  c9_restart_policy_amended true (1 / 2)

/-! ### Claim C10: constructor assertions -/

/-- C10: constructing a `ProbabilisticBeamSearch` succeeds exactly when
`beam_width ≥ 1` and `mu ≥ 1` (the two assertions), and in particular calling
the constructor with its own declared default value `mu = 0.2` (with the
default `beam_width = 1`, and the other defaults `determinism_rate = 0.9`,
`max_children = 100`, `n_samples = 10`, `sample_percent = 100`) fails the
assertion with the message `mu must be >= 1`: the defaults as written cannot
be used together. -/
theorem c10_constructor_assertions :
    (∀ (nn bw : Int) (dr : ℚ) (mc : Int) (mu : ℚ) (ns sp : Int),
      (∃ p, pbs_init nn bw dr mc mu ns sp = Except.ok p) ↔ 1 ≤ bw ∧ 1 ≤ mu) ∧
    pbs_init 3 1 (9 / 10) 100 (1 / 5) 10 100 = Except.error "mu must be >= 1" := by
  constructor
  · intro nn bw dr mc mu ns sp
    constructor
    · rintro ⟨p, hp⟩
      by_cases h1 : 0 < bw
      · by_cases h2 : 1 ≤ mu
        · exact ⟨by omega, h2⟩
        · rw [pbs_init, if_neg (not_not.mpr h1), if_pos h2] at hp
          exact absurd hp (by simp)
      · rw [pbs_init, if_pos h1] at hp
        exact absurd hp (by simp)
    · rintro ⟨h1, h2⟩
      exact ⟨⟨bw, dr, mc, mu, ns,
          pyInt ((sp : ℚ) * ((nn : ℚ) - 1) / 100 + 1 / 2) + 1, pyInt ((bw : ℚ) * mu)⟩,
        by rw [pbs_init, if_neg (show ¬¬0 < bw by omega), if_neg (not_not.mpr h2)]⟩
  · rw [pbs_init, if_neg (by norm_num), if_pos (by norm_num)]

/-! ### Claim C6: the travel-cost formula -/

/-- C6: for every pair `(i, j)` in range, the travel-cost heuristic equals
`(distance_max - w(i,j)) / (distance_max - distance_min)` off the diagonal
with divisor 1 when `distance_max = distance_min`, and 0 on the diagonal
(given the instance-model invariant `distance_min ≤ distance_max`). -/
theorem c6_travel_cost_formula (dmax dmin : ℚ) (w : Nat → Nat → ℚ) (n i j : Nat)
    (hd : dmin ≤ dmax) (hi : i < n) (hj : j < n) :
    cell (travel_cost dmax dmin w n) i j =
      if i = j then 0
      else (dmax - w i j) / (if dmax = dmin then 1 else dmax - dmin) := by
  unfold cell travel_cost
  rw [getD_range_map _ _ _ _ hi, getD_range_map _ _ _ _ hj]
  have hdiv : (if 0 < dmax - dmin then dmax - dmin else 1) =
      (if dmax = dmin then (1 : ℚ) else dmax - dmin) := by
    by_cases he : dmax = dmin
    · rw [if_pos he, if_neg (by rw [he]; simp)]
    · have hlt : 0 < dmax - dmin :=
        sub_pos.mpr (lt_of_le_of_ne hd (fun h => he h.symm))
      rw [if_pos hlt, if_neg he]
  rw [hdiv]

/-- Witness for C6 on the concrete instance at the off-diagonal pair (0, 2). -/
theorem c6_travel_cost_formula_witness :
    cell (travel_cost 3 1 w3 3) 0 2 =
      if (0 : Nat) = 2 then 0
      else (3 - w3 0 2) / (if (3 : ℚ) = 1 then 1 else 3 - 1) :=
  c6_travel_cost_formula 3 1 w3 3 0 2 (by norm_num) (by decide) (by decide)

/-! ### Claim C7: ranges of the standardized heuristic matrices -/

theorem gapList_pos (tw : Nat → ℚ) (n k : Nat) (g : ℚ) (hg : g ∈ gapList tw n k) :
    0 < g := by
  unfold gapList at hg
  obtain ⟨j, _, hj⟩ := List.mem_filterMap.mp hg
  by_cases hpos : 0 < tw j - tw k
  · rw [if_pos hpos] at hj
    cases hj
    exact hpos
  · rw [if_neg hpos] at hj
    cases hj

theorem minPosGap_mem (tw : Nat → ℚ) (n k : Nat) (hne : gapList tw n k ≠ []) :
    minPosGap tw n k ∈ gapList tw n k := by
  unfold minPosGap
  cases hgl : gapList tw n k with
  | nil => exact absurd hgl hne
  | cons x xs =>
      show List.foldl min x xs ∈ x :: xs
      rcases foldl_min_cases xs x with h | h
      · rw [h]; exact List.mem_cons_self x xs
      · exact List.mem_cons_of_mem x h

theorem minPosGap_le (tw : Nat → ℚ) (n k : Nat) (g : ℚ) (hg : g ∈ gapList tw n k) :
    minPosGap tw n k ≤ g := by
  unfold minPosGap
  cases hgl : gapList tw n k with
  | nil => rw [hgl] at hg; cases hg
  | cons x xs =>
      rw [hgl] at hg
      rcases List.mem_cons.mp hg with h | h
      · subst h; exact foldl_min_init xs g
      · exact foldl_min_le_mem xs x g h

theorem finiteVals_pos (tw : Nat → ℚ) (n : Nat) (v : ℚ) (hv : v ∈ finiteVals tw n) :
    0 < v := by
  unfold finiteVals at hv
  obtain ⟨k, hk, hkv⟩ := List.mem_map.mp hv
  unfold finiteIdx at hk
  have hk2 := List.of_mem_filter hk
  have hne : gapList tw n k ≠ [] := by
    intro h
    rw [h] at hk2
    simp [List.isEmpty] at hk2
  subst hkv
  exact gapList_pos tw n k _ (minPosGap_mem tw n k hne)

theorem mem_finiteVals (tw : Nat → ℚ) (n k : Nat) (hk : k < n)
    (hne : gapList tw n k ≠ []) : minPosGap tw n k ∈ finiteVals tw n := by
  unfold finiteVals
  refine List.mem_map.mpr ⟨k, ?_, rfl⟩
  unfold finiteIdx
  refine List.mem_filter.mpr ⟨List.mem_range.mpr hk, ?_⟩
  simp [List.isEmpty_iff, hne]

theorem gapMin_le_mem (tw : Nat → ℚ) (n : Nat) (v : ℚ) (hv : v ∈ finiteVals tw n) :
    gapMin tw n ≤ v := by
  unfold gapMin
  cases hfv : finiteVals tw n with
  | nil => rw [hfv] at hv; cases hv
  | cons x xs =>
      rw [hfv] at hv
      rcases List.mem_cons.mp hv with h | h
      · subst h; exact foldl_min_init xs v
      · exact foldl_min_le_mem xs x v h

theorem le_gapMax_mem (tw : Nat → ℚ) (n : Nat) (v : ℚ) (hv : v ∈ finiteVals tw n) :
    v ≤ gapMax tw n :=
  foldl_max_le_mem (finiteVals tw n) (-1) v hv

theorem gapMin_pos (tw : Nat → ℚ) (n : Nat) (hne : finiteVals tw n ≠ []) :
    0 < gapMin tw n := by
  have hmem : gapMin tw n ∈ finiteVals tw n := by
    unfold gapMin
    cases hfv : finiteVals tw n with
    | nil => exact absurd hfv hne
    | cons x xs =>
        show List.foldl min x xs ∈ x :: xs
        rcases foldl_min_cases xs x with h | h
        · rw [h]; exact List.mem_cons_self x xs
        · exact List.mem_cons_of_mem x h
  exact finiteVals_pos tw n _ hmem

theorem stdCol_bounds (tw : Nat → ℚ) (n j : Nat) (hne : finiteVals tw n ≠ [])
    (hlt : gapMin tw n < gapMax tw n) (hj : j < n) :
    0 < stdCol tw n j ∧ stdCol tw n j ≤ 1 := by
  have hden : 0 < gapMax tw n - gapMin tw n := sub_pos.mpr hlt
  have hnum : minPosGap tw n j ≤ gapMax tw n := by
    by_cases hgl : gapList tw n j = []
    · have h0 : minPosGap tw n j = 0 := by unfold minPosGap; rw [hgl]
      rw [h0]
      exact le_of_lt (lt_trans (gapMin_pos tw n hne) hlt)
    · exact le_gapMax_mem tw n _ (mem_finiteVals tw n j hj hgl)
  unfold stdCol
  set s := (gapMax tw n - minPosGap tw n j) / (gapMax tw n - gapMin tw n) with hs
  have hs0 : 0 ≤ s := div_nonneg (by linarith) (le_of_lt hden)
  by_cases h1 : 1 < s
  · rw [if_pos h1]; norm_num
  · rw [if_neg h1]
    by_cases h2 : s = 0
    · rw [if_pos h2]; norm_num
    · rw [if_neg h2]
      exact ⟨lt_of_le_of_ne hs0 (Ne.symm h2), not_lt.mp h1⟩

/-- C7 counterexample: the claim says every entry of the travel-cost matrix
lies in the half-open interval (0, 1].  No floor is ever applied to the
travel-cost matrix: on the concrete instance the off-diagonal entry (0, 2)
sits on a maximum-weight edge and equals exactly 0, outside (0, 1]. -/
theorem c7_travel_cost_zero_entry_counterexample :
    (0 : Nat) ≠ 2 ∧ cell (travel_cost 3 1 w3 3) 0 2 = 0 ∧
      ¬ (0 < cell (travel_cost 3 1 w3 3) 0 2) := by
  have hc : cell (travel_cost 3 1 w3 3) 0 2 = 0 := by
    rw [travel_cost_w3]
    norm_num [cell]
  exact ⟨by decide, hc, by rw [hc]; norm_num⟩

/-- C7 (amended): every entry of the standardized service-time matrices `l`
and `e` lies in (0, 1] (under the instance-model conditions that some node
has a positive gap and the per-node gap extremes are distinct, without which
the Python standardization divides by zero or by infinity); the travel-cost
matrix `c` has zero diagonal and off-diagonal entries in the closed interval
[0, 1] — it gets no positive floor, and an entry on a maximum-weight edge is
exactly 0. -/
theorem c7_heuristic_ranges_amended (dmax dmin : ℚ) (w : Nat → Nat → ℚ)
    (twE twL : Nat → ℚ) (n i j : Nat)
    (hw : ∀ a b, a < n → b < n → dmin ≤ w a b ∧ w a b ≤ dmax)
    (hi : i < n) (hj : j < n)
    (hE1 : finiteVals twE n ≠ []) (hE2 : gapMin twE n < gapMax twE n)
    (hL1 : finiteVals twL n ≠ []) (hL2 : gapMin twL n < gapMax twL n) :
    (0 ≤ cell (travel_cost dmax dmin w n) i j ∧ cell (travel_cost dmax dmin w n) i j ≤ 1) ∧
    cell (travel_cost dmax dmin w n) i i = 0 ∧
    (0 < cell (serviceMatrix twE n) i j ∧ cell (serviceMatrix twE n) i j ≤ 1) ∧
    (0 < cell (serviceMatrix twL n) i j ∧ cell (serviceMatrix twL n) i j ≤ 1) := by
  have hcell : ∀ a b, a < n → b < n → cell (travel_cost dmax dmin w n) a b =
      if a = b then 0
      else (dmax - w a b) / (if 0 < dmax - dmin then dmax - dmin else 1) := by
    intro a b ha hb
    unfold cell travel_cost
    rw [getD_range_map _ _ _ _ ha, getD_range_map _ _ _ _ hb]
  have hsvc : ∀ (tw : Nat → ℚ), cell (serviceMatrix tw n) i j = stdCol tw n j := by
    intro tw
    unfold cell serviceMatrix
    rw [getD_range_map _ _ _ _ hi, getD_range_map _ _ _ _ hj]
  refine ⟨?_, ?_, ?_, ?_⟩
  · rw [hcell i j hi hj]
    by_cases hij : i = j
    · rw [if_pos hij]; norm_num
    · rw [if_neg hij]
      obtain ⟨hw1, hw2⟩ := hw i j hi hj
      by_cases hdd : 0 < dmax - dmin
      · rw [if_pos hdd]
        constructor
        · exact div_nonneg (by linarith) (le_of_lt hdd)
        · rw [div_le_one hdd]; linarith
      · rw [if_neg hdd]
        have heq : dmax = dmin := le_antisymm (by linarith [not_lt.mp hdd]) (le_trans hw1 hw2)
        constructor
        · have : w i j = dmax := le_antisymm hw2 (heq ▸ hw1)
          rw [this]; norm_num
        · have : w i j = dmax := le_antisymm hw2 (heq ▸ hw1)
          rw [this]; norm_num
  · rw [hcell i i hi hi, if_pos rfl]
  · rw [hsvc twE]
    exact stdCol_bounds twE n j hE1 hE2 hj
  · rw [hsvc twL]
    exact stdCol_bounds twL n j hL1 hL2 hj

/-- Witness for C7 on the concrete 3-node instance at entry (0, 1). -/
theorem c7_heuristic_ranges_amended_witness :
    (0 ≤ cell (travel_cost 3 1 w3 3) 0 1 ∧ cell (travel_cost 3 1 w3 3) 0 1 ≤ 1) ∧
    cell (travel_cost 3 1 w3 3) 0 0 = 0 ∧
    (0 < cell (serviceMatrix twE3 3) 0 1 ∧ cell (serviceMatrix twE3 3) 0 1 ≤ 1) ∧
    (0 < cell (serviceMatrix twL3 3) 0 1 ∧ cell (serviceMatrix twL3 3) 0 1 ≤ 1) :=
  c7_heuristic_ranges_amended 3 1 w3 twE3 twL3 3 0 1
    (by intro a b _ _; unfold w3; split <;> norm_num)
    (by decide) (by decide)
    (by rw [finiteVals_twE3]; simp)
    (by unfold gapMin gapMax; rw [finiteVals_twE3]; norm_num)
    (by rw [finiteVals_twL3]; simp)
    (by unfold gapMin gapMax; rw [finiteVals_twL3]; norm_num)

/-! ### Claim C3: pheromone bounds -/

theorem clampVal_bounds (lo hi x : ℚ) (h : lo ≤ hi) :
    lo ≤ clampVal lo hi x ∧ clampVal lo hi x ≤ hi := by
  unfold clampVal
  exact ⟨le_max_left lo (min x hi), max_le h (min_le_right x hi)⟩

theorem getD_replicate {α : Type} (x d : α) (n i : Nat) (hi : i < n) :
    (List.replicate n x).getD i d = x := by
  have h1 : i < (List.replicate n x).length := by simpa using hi
  rw [List.getD_eq_getElem _ _ h1]
  exact List.getElem_replicate x h1

theorem reset_inBounds (n : Nat) : phInBounds n (resetUniformPheromoneValues n) := by
  unfold phInBounds resetUniformPheromoneValues
  refine ⟨List.length_replicate n _, ?_, ?_⟩
  · intro i hi
    rw [getD_replicate _ _ _ _ hi]
    exact List.length_replicate n _
  · intro i j hi hj
    unfold cell
    rw [getD_replicate _ _ _ _ hi, getD_replicate _ _ _ _ hj]
    norm_num

theorem update_inBounds (n : Nat) (r : ℚ) (dep : Nat → Nat → ℚ)
    (m : List (List ℚ)) (hm : phInBounds n m) :
    phInBounds n (updatePheromoneValues r dep m) := by
  obtain ⟨hlen, hrow, _⟩ := hm
  unfold phInBounds updatePheromoneValues
  refine ⟨by simpa using hlen, ?_, ?_⟩
  · intro i hi
    rw [getD_range_map _ _ _ _ (by rw [hlen]; exact hi)]
    simpa using hrow i hi
  · intro i j hi hj
    unfold cell
    rw [getD_range_map _ _ _ _ (by rw [hlen]; exact hi),
      getD_range_map _ _ _ _ (by rw [hrow i hi]; exact hj)]
    exact clampVal_bounds _ _ _ (by norm_num)

theorem run_inBounds (n : Nat) (ops : List PhOp) (m : List (List ℚ))
    (hm : phInBounds n m) : phInBounds n (ops.foldl (phStep n) m) := by
  induction ops generalizing m with
  | nil => exact hm
  | cons op rest ih =>
      refine ih (phStep n m op) ?_
      cases op with
      | reset => exact reset_inBounds n
      | update r d => exact update_inBounds n r d m hm

/-- C3: for every sequence of pheromone operations performed by the trial
driver — the trial-start reset followed by any mix of
`resetUniformPheromoneValues` and `updatePheromoneValues` with any learning
rate and any deposit (hence any tour arguments) — every cell of the matrix
lies within the driver's bounds `[tau_min, tau_max] = [0.001, 0.999]` after
each operation, and a reset sets every cell to 0.5. -/
theorem c3_pheromone_bounds_invariant (n : Nat) (ops : List PhOp) (i j : Nat)
    (hi : i < n) (hj : j < n) :
    (1 / 1000 ≤ cell (runPhOps n ops) i j ∧ cell (runPhOps n ops) i j ≤ 999 / 1000) ∧
      cell (resetUniformPheromoneValues n) i j = 1 / 2 := by
  constructor
  · have h := run_inBounds n ops (resetUniformPheromoneValues n) (reset_inBounds n)
    exact h.2.2 i j hi hj
  · unfold cell resetUniformPheromoneValues
    rw [getD_replicate _ _ _ _ hi, getD_replicate _ _ _ _ hj]

/-- Witness for C3: one update (learning rate 0.1, uniform deposit 1) after
the trial-start reset, on a 2×2 matrix. -/
theorem c3_pheromone_bounds_invariant_witness :
    (1 / 1000 ≤ cell (runPhOps 2 [PhOp.update (1 / 10) (fun _ _ => 1)]) 0 1 ∧
      cell (runPhOps 2 [PhOp.update (1 / 10) (fun _ _ => 1)]) 0 1 ≤ 999 / 1000) ∧
      cell (resetUniformPheromoneValues 2) 0 1 = 1 / 2 :=
  c3_pheromone_bounds_invariant 2 [PhOp.update (1 / 10) (fun _ _ => 1)] 0 1
    (by decide) (by decide)
